import Mathlib

/-!
Verification development for the pyempaq packer/unpacker.

The definitions below are a shallow embedding of the Python sources:
`pyempaq/unpacker.py` (setup_project_directory, build_project_install_dir,
get_file_hexdigest, enforce_restrictions, build_command, run_command,
FatalError.ReturnCode) and `pyempaq/main.py` (copy_project, prepare_metadata,
pack).  Filesystem paths are lists of components; external effects (archive
extraction, dependency installation, subprocesses) are represented by explicit
action traces or boolean outcome parameters; the SHA-256 primitive from
`hashlib` is an opaque function parameter, since only the shape of the derived
name depends on it.
-/

namespace Pyempaq

/-- A filesystem path as a list of components ("relative path"). -/
abbrev RPath := List String

/-- `pathLe a p` holds when `a` is an ancestor of `p` or equal to it,
component-wise (the path-containment order used by `pathlib`). -/
def pathLe : RPath → RPath → Bool
  | [], _ => true
  | _ :: _, [] => false
  | x :: xs, y :: ys => decide (x = y) && pathLe xs ys

/-- All proper ancestors of a path, shortest first.  This mirrors membership in
`pathlib.Path.parents`, which contains every strict ancestor of a path
(including the root) but never the path itself. -/
def pathParents : RPath → List RPath
  | [] => []
  | x :: xs => [] :: (pathParents xs).map (x :: ·)

/-! ### setup_project_directory (unpacker.py lines 121-185)

The procedure is modelled by the trace of filesystem / installer effects it
performs, together with a success flag.  The `installOk` parameter stands for
the outcome of the external virtualenv-creation/pip-install step
(`logged_exec` raises on failure, aborting the function before the unpack
record and the completeness marker are written). -/

/-- Effects performed by `setup_project_directory`, in order. -/
inductive SetupAction
  | rmtree       -- shutil.rmtree(project_dir)
  | mkdir        -- project_dir.mkdir()
  | extract      -- zf.extractall(path=project_dir)
  | createVenv   -- venv.create(venv_dir, with_pip=True)
  | installDeps  -- logged_exec([pip, "install", "-r", ...])
  | writeRecord  -- (project_dir / "unpacking.json").write_text(...)
  | writeMarker  -- (project_dir / COMPLETE_FLAG_FILE).touch()
deriving DecidableEq

/-- The body of `setup_project_directory` after the existence checks: create
the directory, extract, provision the virtualenv when there are requirements,
write the unpack record, write the completeness flag. -/
def install_sequence (venv_requirements : List String) (installOk : Bool) :
    List SetupAction × Bool :=
  if venv_requirements = [] then
    ([SetupAction.mkdir, SetupAction.extract,
      SetupAction.writeRecord, SetupAction.writeMarker], true)
  else if installOk then
    ([SetupAction.mkdir, SetupAction.extract, SetupAction.createVenv,
      SetupAction.installDeps, SetupAction.writeRecord, SetupAction.writeMarker], true)
  else
    ([SetupAction.mkdir, SetupAction.extract, SetupAction.createVenv,
      SetupAction.installDeps], false)

/-- `setup_project_directory` from unpacker.py: if the directory exists with
the completeness flag, return immediately; if it exists without the flag,
remove it entirely and redo the full sequence; otherwise just run the full
sequence. -/
def setup_project_directory (dir_exists marker_exists : Bool)
    (venv_requirements : List String) (installOk : Bool) :
    List SetupAction × Bool :=
  if dir_exists then
    if marker_exists then ([], true)
    else
      let r := install_sequence venv_requirements installOk
      (SetupAction.rmtree :: r.1, r.2)
  else install_sequence venv_requirements installOk

/-! ### build_project_install_dir (unpacker.py lines 207-220) -/

/-- Python string slicing `s[:n]`, on the underlying character list. -/
def strTake (s : String) (n : Nat) : String := ⟨s.data.take n⟩

/-- Python `str.lower()`, on the underlying character list. -/
def strLower (s : String) : String := ⟨s.data.map Char.toLower⟩

/-- Python `".".join(parts)`. -/
def joinDot : List String → String
  | [] => ""
  | [x] => x
  | x :: y :: xs => x ++ "." ++ joinDot (y :: xs)

/-- Runtime fingerprint of the interpreter executing the unpacker:
`platform.python_implementation()`, `platform.python_version_tuple()`, and the
hex form of the bytecode magic number (the module constant `MAGIC_NUMBER`). -/
structure Runtime where
  python_implementation : String
  python_version_tuple : List String
  magic_number : String

/-- `get_file_hexdigest` from unpacker.py: the SHA-256 hexdigest of the file's
bytes.  The chunked read loop feeds every byte of the file to the hasher, so
the result is the digest of the whole content; `sha256_hexdigest` stands for
the `hashlib.sha256` primitive. -/
def get_file_hexdigest (sha256_hexdigest : List Nat → String)
    (contents : List Nat) : String :=
  sha256_hexdigest contents

/-- `build_project_install_dir` from unpacker.py: the name of the directory
where everything will be extracted. -/
def build_project_install_dir (sha256_hexdigest : List Nat → String)
    (rt : Runtime) (project_name : String) (archive_bytes : List Nat) : String :=
  let hexdigest := get_file_hexdigest sha256_hexdigest archive_bytes
  let file_hash_partial := strTake hexdigest 20
  let py_impl := strLower rt.python_implementation
  let py_version := joinDot (rt.python_version_tuple.take 2)
  project_name ++ "-" ++ file_hash_partial ++ "-" ++ py_impl ++ "." ++
    py_version ++ "." ++ rt.magic_number

/-! ### prepare_metadata (main.py lines 149-182) and build_command
(unpacker.py lines 81-94)

Python is dynamically typed: the metadata dictionary's `exec_value` entry
holds a string for the `script` and `module` styles and would hold a list for
`entrypoint` had the code stored the list itself.  `MetaValue` models that
dynamic value, and command lists built by `build_command` are lists of such
dynamic values; `Option` models an uncaught runtime exception (TypeError on
`list + str`, KeyError / NameError on a missing entry). -/

/-- A dynamically typed metadata value: a string or a list of strings. -/
inductive MetaValue
  | str (s : String)
  | list (xs : List String)
deriving DecidableEq

/-- The validated `exec` section of the configuration
(config_manager.Executor): at most one of the three variants is set. -/
structure Executor where
  script : Option String
  module : Option String
  entrypoint : Option (List String)
  default_args : List String

/-- The validated configuration (config_manager.Config), restricted to the
fields the packer reads. -/
structure Config where
  name : String
  requirements : List String
  dependencies : List String
  exec : Executor
  incl : List String
  exclude : List String
  unpack_restrictions : List (String × Option String)

/-- The archive metadata dictionary prepared by `prepare_metadata`. -/
structure Metadata where
  requirement_files : List String
  project_name : String
  exec_default_args : List String
  exec_style : Option String
  exec_value : Option MetaValue
  unpack_restrictions : List (String × Option String)
deriving DecidableEq

/-- Python `repr` of a list of plain strings, as produced by `str(list)`:
each element in single quotes, separated by comma-space, in brackets. -/
def pyQuoted : List String → String
  | [] => ""
  | [x] => "\x27" ++ x ++ "\x27"
  | x :: y :: xs => "\x27" ++ x ++ "\x27" ++ ", " ++ pyQuoted (y :: xs)

/-- Python `str(xs)` for a list of strings. -/
def pyListRepr (xs : List String) : String := "[" ++ pyQuoted xs ++ "]"

/-- `prepare_metadata` from main.py.  `uniq` is the unique
`pyempaq-autoreq-{uuid}.txt` name generated for the synthetic requirements
file that materializes `dependencies`.  Note the source stores
`str(config.exec.entrypoint)` — the Python repr string — for the entrypoint
style. -/
def prepare_metadata (uniq : String) (config : Config) : Metadata :=
  let base : Metadata :=
    { requirement_files := config.requirements
      project_name := config.name
      exec_default_args := config.exec.default_args
      exec_style := none
      exec_value := none
      unpack_restrictions := config.unpack_restrictions }
  let md :=
    match config.exec.script with
    | some s => { base with exec_style := some "script", exec_value := some (MetaValue.str s) }
    | none =>
      match config.exec.module with
      | some m => { base with exec_style := some "module", exec_value := some (MetaValue.str m) }
      | none =>
        match config.exec.entrypoint with
        | some ep =>
          { base with exec_style := some "entrypoint"
                      exec_value := some (MetaValue.str (pyListRepr ep)) }
        | none => base
  if config.dependencies ≠ [] then
    { md with requirement_files := md.requirement_files ++ [uniq] }
  else md

/-- `build_command` from unpacker.py.  Returns `none` when the Python code
would raise: concatenating `[python_exec]` with a non-list `exec_value`
(TypeError) for the entrypoint style, reading a missing metadata entry, or
reaching the end with `cmd` unbound because no style matched. -/
def build_command (python_exec : String) (md : Metadata) (sys_args : List String) :
    Option (List MetaValue) :=
  let lead : Option (List MetaValue) :=
    if md.exec_style = some "script" then
      md.exec_value.map (fun v => [MetaValue.str python_exec, v])
    else if md.exec_style = some "module" then
      md.exec_value.map (fun v => [MetaValue.str python_exec, MetaValue.str "-m", v])
    else if md.exec_style = some "entrypoint" then
      match md.exec_value with
      | some (MetaValue.list xs) =>
        some (MetaValue.str python_exec :: xs.map MetaValue.str)
      | _ => none
    else none
  lead.map (fun cmd =>
    cmd ++ (if sys_args ≠ [] then sys_args else md.exec_default_args).map MetaValue.str)

/-! ### run_command (unpacker.py lines 97-106)

The process environment is an association list with unique keys; `envSet`
models Python dict assignment (replace in place, else append).  The child
process is abstracted by its exit status, which `subprocess.run` returns
without raising. -/

/-- Dict assignment `env[k] = v` on an association list. -/
def envSet : List (String × String) → String → String → List (String × String)
  | [], k, v => [(k, v)]
  | kv :: rest, k, v => if kv.1 = k then (k, v) :: rest else kv :: envSet rest k v

/-- `run_command` from unpacker.py: copy the environment, append the venv bin
directory to `PATH` (or create `PATH` if absent), expose the running archive's
directory as `PYEMPAQ_PYZ_PATH`, and run the command, returning the child's
exit status. -/
def run_command (environ : List (String × String)) (pyz_dir : String)
    (venv_bin_dir : String) (cmd : List String) (child_returncode : Int) :
    List (String × String) × Int :=
  let newenv := environ
  let newenv :=
    match newenv.lookup "PATH" with
    | some p => envSet newenv "PATH" (p ++ ":" ++ venv_bin_dir)
    | none => envSet newenv "PATH" venv_bin_dir
  let newenv := envSet newenv "PYEMPAQ_PYZ_PATH" pyz_dir
  (newenv, child_returncode)

/-! ### enforce_restrictions (unpacker.py lines 188-204) -/

/-- The unpacker's process return codes (FatalError.ReturnCode). -/
inductive ReturnCode
  | restrictions_not_met
  | unpack_basedir_missing
  | unpack_basedir_notdir
deriving DecidableEq

/-- Numeric value of each return code. -/
def ReturnCode.code : ReturnCode → Nat
  | .restrictions_not_met => 64
  | .unpack_basedir_missing => 65
  | .unpack_basedir_notdir => 66

/-- Split a character list on a separator character (Python `str.split`). -/
def splitOnChar (c : Char) : List Char → List (List Char)
  | [] => [[]]
  | x :: xs =>
    let r := splitOnChar c xs
    if x = c then [] :: r
    else
      match r with
      | [] => [[x]]
      | h :: t => (x :: h) :: t

/-- Decimal digits to a number (Python `int`, on digit-only input). -/
def parseNatDigits (cs : List Char) : Nat :=
  cs.foldl (fun acc c => acc * 10 + (c.toNat - 48)) 0

/-- Release tuple of a dotted numeric version string, as
`packaging.version.parse` derives it for plain versions such as "3.9". -/
def versionParse (s : String) : List Nat :=
  (splitOnChar '.' s.data).map parseNatDigits

/-- Does the zero-padded remainder contain a positive component? -/
def anyPos : List Nat → Bool
  | [] => false
  | y :: ys => decide (0 < y) || anyPos ys

/-- Strict comparison of release tuples with zero padding, the order
`packaging.version` uses on plain release versions. -/
def versionLt : List Nat → List Nat → Bool
  | [], ys => anyPos ys
  | _ :: _, [] => false
  | x :: xs, y :: ys =>
    if x < y then true else if y < x then false else versionLt xs ys

/-- `enforce_restrictions` from unpacker.py: pass trivially on an empty
restrictions mapping; otherwise, when a minimum Python version is declared and
the current version parses older, fail with `restrictions_not_met` unless the
key "minimum-python-version" appears in the comma-separated
PYEMPAQ_IGNORE_RESTRICTIONS environment variable (`ignore_env`), in which case
the failure is only logged. -/
def enforce_restrictions (ignore_env : Option String) (current_version : String)
    (restrictions : List (String × Option String)) : Except ReturnCode Unit :=
  if restrictions = [] then Except.ok ()
  else
    let ignored_restrictions := splitOnChar ',' (ignore_env.getD "").data
    match restrictions.lookup "minimum_python_version" with
    | none => Except.ok ()
    | some none => Except.ok ()
    | some (some mpv) =>
      if versionLt (versionParse current_version) (versionParse mpv) then
        if ignored_restrictions.contains "minimum-python-version".data then
          Except.ok ()
        else Except.error ReturnCode.restrictions_not_met
      else Except.ok ()

/-! ### copy_project (main.py lines 56-146)

The source tree is a map from relative paths to node kinds; symlink nodes
carry their fully resolved absolute target (`Path.resolve()`) and whether that
target is a directory.  `globExpand` stands for `glob.glob(pattern,
recursive=True)` run inside the source directory: the relative paths a pattern
matches.  The destination tree is the ordered list of entries `copy_project`
creates (directories made, symlinks reproduced, files linked or copied). -/

/-- Kind of a node in the source tree. -/
inductive NodeKind
  | file
  | dir
  | symlink (resolved : List String) (targetIsDir : Bool)
  | other
deriving DecidableEq

/-- The source tree: its absolute root directory and the node found at each
relative path, if any. -/
structure SrcFS where
  srcRoot : List String
  node : RPath → Option NodeKind

/-- `node.is_dir() and node.is_symlink()`: a symlink whose target is a
directory. -/
def isSymlinkDir (fs : SrcFS) (n : RPath) : Bool :=
  match fs.node n with
  | some (NodeKind.symlink _ true) => true
  | _ => false

/-- A node a real recursive glob can descend through: a directory or a symlink
to a directory. -/
def isDirLike : Option NodeKind → Bool
  | some NodeKind.dir => true
  | some (NodeKind.symlink _ true) => true
  | _ => false

/-- Kind of an entry created in the destination tree. -/
inductive DestKind
  | dirMade
  | linkMade
  | fileMade
deriving DecidableEq

/-- The destination tree: entries in creation order. -/
abbrev DestState := List (RPath × DestKind)

/-- Does the destination tree contain an entry at the given path? -/
def destHas (d : DestState) (p : RPath) : Bool :=
  d.any (fun ent => decide (ent.1 = p))

/-- One step of `dest_node.parent.mkdir(parents=True)`: create the directory
unless it already exists. -/
def mkParentsStep (acc : DestState) (q : RPath) : DestState :=
  if destHas acc q then acc else acc ++ [(q, DestKind.dirMade)]

/-- Create all missing ancestor directories of `p` in the destination. -/
def mkParents (d : DestState) (p : RPath) : DestState :=
  (pathParents p).foldl mkParentsStep d

/-- `dict.fromkeys` de-duplication: keep the first occurrence of each element,
preserving order. -/
def dedupFirst : List RPath → List RPath
  | [] => []
  | x :: xs => x :: (dedupFirst xs).filter (fun y => decide (y ≠ x))

/-- The body of the main loop of `copy_project` for one included node: skip it
when it is excluded, has an excluded ancestor, or sits inside a symlinked
directory; otherwise create missing destination ancestors and then reproduce
the node according to its kind (a symlink is reproduced only when its resolved
target lies strictly inside the source root; other node kinds are ignored). -/
def processNode (fs : SrcFS) (excluded_nodes symlinked_dirs : List RPath)
    (d : DestState) (node : RPath) : DestState :=
  if node ∈ excluded_nodes then d
  else if ∃ q ∈ pathParents node, q ∈ excluded_nodes then d
  else if ∃ q ∈ pathParents node, q ∈ symlinked_dirs then d
  else
    let d2 := mkParents d node
    match fs.node node with
    | some (NodeKind.symlink resolved _) =>
      if fs.srcRoot ∈ pathParents resolved then d2 ++ [(node, DestKind.linkMade)]
      else d2
    | some NodeKind.dir =>
      if destHas d2 node then d2 else d2 ++ [(node, DestKind.dirMade)]
    | some NodeKind.file => d2 ++ [(node, DestKind.fileMade)]
    | some NodeKind.other => d2
    | none => d2

/-- The nodes gathered from the include patterns, with the root "." always
first (before de-duplication). -/
def includedList (incl : List String) (globExpand : String → List RPath) :
    List RPath :=
  [] :: incl.flatMap globExpand

/-- `copy_project` from main.py: expand include and exclude patterns, identify
symlinked directories among the candidates, and process every candidate in
order against an initially empty destination. -/
def copy_project (fs : SrcFS) (incl exclude : List String)
    (globExpand : String → List RPath) : DestState :=
  let included_nodes := dedupFirst (includedList incl globExpand)
  let excluded_nodes := exclude.flatMap globExpand
  let symlinked_dirs := included_nodes.filter (fun n => isSymlinkDir fs n)
  included_nodes.foldl (processNode fs excluded_nodes symlinked_dirs) []

/-- Well-formedness of glob results: a real glob only reaches a node by
walking through directories (or symlinks to directories), so every proper
ancestor of a matched path is directory-like. -/
def GlobWF (fs : SrcFS) (nodes : List RPath) : Prop :=
  ∀ n ∈ nodes, ∀ q ∈ pathParents n, isDirLike (fs.node q) = true

/-! ### pack (main.py lines 185-226)

`pack` is modelled by the trace of its steps plus the archive it produces, if
any.  `copyOk` stands for the hard-link/copy syscalls inside `copy_project`
not raising, and `bootstrapOk` for the `pip install appdirs` bootstrap step
(`logged_exec`) succeeding; an exception propagates out of `pack`, which has
no try/finally around its scratch directory. -/

/-- Steps performed by `pack`, in order. -/
inductive PackAction
  | mkdtemp           -- tempfile.mkdtemp()
  | copyProjectStep   -- copy_project(config.basedir, origdir, ...)
  | copySupportStep   -- copy common.py and unpacker.py into the staging tree
  | bootstrapDeps     -- pip install appdirs --target=venv_dir
  | writeMetadataStep -- json.dump(metadata, fh)
  | createArchiveStep -- zipapp.create_archive(tmpdir, packed_filepath)
  | rmtreeTmp         -- shutil.rmtree(tmpdir)
deriving DecidableEq

/-- The distributable archive: the staged `orig/` tree and the metadata
sidecar. -/
structure ArchiveContent where
  origEntries : DestState
  metadata : Metadata

/-- Result of a `pack` run: the steps performed and the archive produced
(`none` when an exception aborted the run). -/
structure PackOutcome where
  actions : List PackAction
  archive : Option ArchiveContent

/-- `pack` from main.py: make a scratch directory, copy the selected project
content into `orig/`, copy the support code, provision the unpacker's
bootstrap dependency, write the metadata sidecar, assemble the archive, and
remove the scratch directory.  No step checks that the declared requirement
files are present in the copied content, and only the final line removes the
scratch directory. -/
def pack (fs : SrcFS) (globExpand : String → List RPath) (uniq : String)
    (copyOk bootstrapOk : Bool) (config : Config) : PackOutcome :=
  let acts := [PackAction.mkdtemp]
  if ¬ copyOk then
    { actions := acts ++ [PackAction.copyProjectStep], archive := none }
  else
    let orig := copy_project fs config.incl config.exclude globExpand
    let acts := acts ++ [PackAction.copyProjectStep, PackAction.copySupportStep]
    if ¬ bootstrapOk then
      { actions := acts ++ [PackAction.bootstrapDeps], archive := none }
    else
      let md := prepare_metadata uniq config
      { actions := acts ++ [PackAction.bootstrapDeps, PackAction.writeMetadataStep,
          PackAction.createArchiveStep, PackAction.rmtreeTmp],
        archive := some { origEntries := orig, metadata := md } }

/-! ### Concrete inputs used by witnesses -/

/-- Toy stand-in for the SHA-256 hexdigest primitive, used only to witness the
install-directory-name theorem at concrete inputs. -/
def shaToy : List Nat → String := fun bytes =>
  if bytes = [0] then "aaaaaaaaaaaaaaaaaaaaaaaa" else "bbbbbbbbbbbbbbbbbbbbbbbb"

/-- Runtime fingerprint used by concrete witnesses. -/
def rtToy : Runtime :=
  { python_implementation := "CPython"
    python_version_tuple := ["3", "11", "2"]
    magic_number := "a70d" }

/-- A manifest whose exec variant is `entrypoint: [foo, bar]` (the
configuration of test_metadata_base_exec_entrypoint). -/
def cfgEntrypoint : Config :=
  { name := "testproject"
    requirements := []
    dependencies := []
    exec := { script := none, module := none,
              entrypoint := some ["foo", "bar"], default_args := [] }
    incl := ["./**"]
    exclude := []
    unpack_restrictions := [] }

/-- A source tree with a file `base/foo` inside a directory `base`
(the layout of test_copyproject_specific_file_inside_directory_ignored). -/
def fsBase : SrcFS :=
  { srcRoot := ["p"]
    node := fun p =>
      if p = [] then some NodeKind.dir
      else if p = ["base"] then some NodeKind.dir
      else if p = ["base", "foo"] then some NodeKind.file
      else none }

/-- Glob expansion for `fsBase`. -/
def gEBase : String → List RPath := fun pat =>
  if pat = "base/foo" then [["base", "foo"]]
  else if pat = "base" then [["base"]]
  else []

/-- A source tree whose node `lnk` is a symlink resolving outside the source
root `home/user/proj`. -/
def fsLink : SrcFS :=
  { srcRoot := ["home", "user", "proj"]
    node := fun p =>
      if p = [] then some NodeKind.dir
      else if p = ["lnk"] then
        some (NodeKind.symlink ["home", "user", "other"] false)
      else none }

/-- Glob expansion for `fsLink`. -/
def gELink : String → List RPath := fun pat =>
  if pat = "lnk" then [["lnk"]] else []

/-- A source tree whose node `lnk` is a symlink resolving to the source root
itself. -/
def fsLinkRoot : SrcFS :=
  { srcRoot := ["home", "user", "proj"]
    node := fun p =>
      if p = [] then some NodeKind.dir
      else if p = ["lnk"] then
        some (NodeKind.symlink ["home", "user", "proj"] true)
      else none }

/-- Glob expansion for `fsLinkRoot`. -/
def gELinkRoot : String → List RPath := fun pat =>
  if pat = "lnk" then [["lnk"]] else []

/-- A source tree with a payload file and a requirements file. -/
def fsPack : SrcFS :=
  { srcRoot := ["p"]
    node := fun p =>
      if p = [] then some NodeKind.dir
      else if p = ["app.py"] then some NodeKind.file
      else if p = ["reqs.txt"] then some NodeKind.file
      else none }

/-- Glob expansion for `fsPack`. -/
def gEPack : String → List RPath := fun pat =>
  if pat = "**" then [["app.py"], ["reqs.txt"]]
  else if pat = "reqs.txt" then [["reqs.txt"]]
  else []

/-- A manifest that declares `reqs.txt` as a requirement file while an exclude
pattern removes it from the selected content. -/
def cfgPack : Config :=
  { name := "demo"
    requirements := ["reqs.txt"]
    dependencies := []
    exec := { script := some "app.py", module := none,
              entrypoint := none, default_args := [] }
    incl := ["**"]
    exclude := ["reqs.txt"]
    unpack_restrictions := [] }

end Pyempaq

namespace Pyempaq

/-- Auxiliary: `String.append` concatenates the underlying character lists. -/
theorem data_append (s t : String) : (s ++ t).data = s.data ++ t.data := by
  cases s; cases t; rfl

/-- Auxiliary: strings with equal character lists are equal. -/
theorem string_data_inj {s t : String} (h : s.data = t.data) : s = t := by
  cases s; cases t; exact congrArg String.mk h

/-- C1: if the target directory exists and carries the completeness marker,
`setup_project_directory` returns with no effects at all; if it exists without
the marker, the whole directory is deleted and the full install sequence
(create, extract, provision when requirements are non-empty, write the unpack
record, write the marker) is redone from scratch; and the completeness marker
is written only as the last step of a successful install. -/
theorem setup_project_directory_idempotent_spec :
    ∀ (dir_exists marker_exists : Bool) (reqs : List String) (installOk : Bool),
      (dir_exists = true → marker_exists = true →
        setup_project_directory dir_exists marker_exists reqs installOk = ([], true))
      ∧ (dir_exists = true → marker_exists = false → installOk = true →
        setup_project_directory dir_exists marker_exists reqs installOk =
          ([SetupAction.rmtree, SetupAction.mkdir, SetupAction.extract] ++
            (if reqs = [] then []
             else [SetupAction.createVenv, SetupAction.installDeps]) ++
            [SetupAction.writeRecord, SetupAction.writeMarker], true))
      ∧ (SetupAction.writeMarker ∈ (setup_project_directory dir_exists marker_exists reqs installOk).1 →
        (setup_project_directory dir_exists marker_exists reqs installOk).2 = true ∧
        (setup_project_directory dir_exists marker_exists reqs installOk).1.getLast? =
          some SetupAction.writeMarker) := by
  intro de me reqs ok
  refine ⟨?_, ?_, ?_⟩
  · rintro rfl rfl
    simp [setup_project_directory]
  · rintro rfl rfl rfl
    rcases reqs with _ | ⟨r, rs⟩ <;>
      simp [setup_project_directory, install_sequence]
  · cases de <;> cases me <;> cases ok <;> rcases reqs with _ | ⟨r, rs⟩ <;>
      simp [setup_project_directory, install_sequence]

/-- C1 witness: concrete runs exercising each hypothesis of the theorem. -/
theorem setup_project_directory_idempotent_spec_witness :
    setup_project_directory true true ["reqs.txt"] true = ([], true)
    ∧ setup_project_directory true false [] true =
        ([SetupAction.rmtree, SetupAction.mkdir, SetupAction.extract] ++
          (if ([] : List String) = [] then []
           else [SetupAction.createVenv, SetupAction.installDeps]) ++
          [SetupAction.writeRecord, SetupAction.writeMarker], true)
    ∧ ((setup_project_directory false false ["reqs.txt"] true).2 = true ∧
        (setup_project_directory false false ["reqs.txt"] true).1.getLast? =
          some SetupAction.writeMarker) :=
  ⟨(setup_project_directory_idempotent_spec true true ["reqs.txt"] true).1 rfl rfl,
   (setup_project_directory_idempotent_spec true false [] true).2.1 rfl rfl rfl,
   (setup_project_directory_idempotent_spec false false ["reqs.txt"] true).2.2 (by decide)⟩

/-- C2: the installation directory name is exactly
`{projectName}-{first 20 hex digits of the digest}-{implementation lowercased}.{major.minor}.{magic}`;
the computation is deterministic in the archive bytes, and archive bytes whose
digest differs in the first 20 hex digits yield a different name. -/
theorem build_project_install_dir_correct :
    ∀ (sha : List Nat → String) (rt : Runtime) (pn : String) (a b : List Nat),
      build_project_install_dir sha rt pn a =
        pn ++ "-" ++ strTake (sha a) 20 ++ "-" ++ strLower rt.python_implementation
          ++ "." ++ joinDot (rt.python_version_tuple.take 2) ++ "." ++ rt.magic_number
      ∧ (a = b →
          build_project_install_dir sha rt pn a = build_project_install_dir sha rt pn b)
      ∧ (strTake (sha a) 20 ≠ strTake (sha b) 20 →
          build_project_install_dir sha rt pn a ≠ build_project_install_dir sha rt pn b) := by
  intro sha rt pn a b
  refine ⟨rfl, fun h => by rw [h], ?_⟩
  intro hne heq
  apply hne
  have hd := congrArg String.data heq
  simp only [build_project_install_dir, get_file_hexdigest, data_append,
    List.append_assoc] at hd
  have hd1 := List.append_cancel_left hd
  have hd2 := List.append_cancel_left hd1
  exact string_data_inj (List.append_cancel_right hd2)

/-- C2 witness: two concrete archives whose digest prefixes differ produce
different installation directory names. -/
theorem build_project_install_dir_correct_witness :
    strTake (shaToy [0]) 20 ≠ strTake (shaToy [1]) 20
    ∧ build_project_install_dir shaToy rtToy "demo" [0] ≠
        build_project_install_dir shaToy rtToy "demo" [1] :=
  ⟨by decide,
   (build_project_install_dir_correct shaToy rtToy "demo" [0] [1]).2.2 (by decide)⟩

end Pyempaq

namespace Pyempaq

/-- Auxiliary: looking up the key just assigned yields the new value. -/
theorem lookup_envSet_self (env : List (String × String)) (k v : String) :
    (envSet env k v).lookup k = some v := by
  induction env with
  | nil => simp [envSet, List.lookup]
  | cons kv rest ih =>
    obtain ⟨k1, v1⟩ := kv
    by_cases h : k1 = k
    · simp [envSet, h, List.lookup]
    · have hb : (k == k1) = false := beq_eq_false_iff_ne.mpr fun hk => h hk.symm
      simp only [envSet, h, if_false, List.lookup, hb]
      exact ih

/-- Auxiliary: assigning one key leaves lookups of other keys unchanged. -/
theorem lookup_envSet_other (env : List (String × String)) (k v k' : String)
    (h : k' ≠ k) : (envSet env k v).lookup k' = env.lookup k' := by
  induction env with
  | nil =>
    have hb : (k' == k) = false := beq_eq_false_iff_ne.mpr h
    simp [envSet, List.lookup, hb]
  | cons kv rest ih =>
    obtain ⟨k1, v1⟩ := kv
    by_cases h1 : k1 = k
    · subst h1
      have hb : (k' == k1) = false := beq_eq_false_iff_ne.mpr h
      simp [envSet, List.lookup, hb]
    · simp only [envSet, h1, if_false, List.lookup]
      cases hb : k' == k1 <;> simp [hb, ih]

end Pyempaq

namespace Pyempaq

/-- C3: packing an entrypoint manifest stores `str(argv)` — the Python repr
string — as `exec_value`, not the argv list itself, so `build_command` on the
resulting metadata fails (the `[runtime] + exec_value` concatenation is a
TypeError on a string); had the list itself been stored, `build_command` would
produce `[runtime] ++ argv` as the spec describes. -/
theorem prepare_metadata_entrypoint_stringifies :
    (prepare_metadata "u" cfgEntrypoint).exec_style = some "entrypoint"
    ∧ (prepare_metadata "u" cfgEntrypoint).exec_value =
        some (MetaValue.str "[\x27foo\x27, \x27bar\x27]")
    ∧ (prepare_metadata "u" cfgEntrypoint).exec_value ≠ some (MetaValue.list ["foo", "bar"])
    ∧ build_command "python" (prepare_metadata "u" cfgEntrypoint) [] = none
    ∧ build_command "python"
        { prepare_metadata "u" cfgEntrypoint with
            exec_value := some (MetaValue.list ["foo", "bar"]) } [] =
        some [MetaValue.str "python", MetaValue.str "foo", MetaValue.str "bar"] := by
  decide

/-- C6: the restriction check passes trivially on an empty restrictions
mapping or an absent minimum version; the version comparison is semantic
("3.9" is older than "3.10"); an older current version yields the fatal
`restrictions_not_met` code 64, unless "minimum-python-version" is listed in
the comma-separated ignore environment variable, in which case the check
passes. -/
theorem enforce_restrictions_correct :
    ∀ (env : Option String) (cur : String)
      (rest : List (String × Option String)) (mpv : String),
      enforce_restrictions env cur [] = Except.ok ()
      ∧ (rest.lookup "minimum_python_version" = some none →
          enforce_restrictions env cur rest = Except.ok ())
      ∧ versionLt (versionParse "3.9") (versionParse "3.10") = true
      ∧ versionLt (versionParse "3.10") (versionParse "3.9") = false
      ∧ ReturnCode.restrictions_not_met.code = 64
      ∧ (rest.lookup "minimum_python_version" = some (some mpv) →
          versionLt (versionParse cur) (versionParse mpv) = true →
          (splitOnChar ',' ((env.getD "").data)).contains "minimum-python-version".data = false →
          enforce_restrictions env cur rest = Except.error ReturnCode.restrictions_not_met)
      ∧ (rest.lookup "minimum_python_version" = some (some mpv) →
          versionLt (versionParse cur) (versionParse mpv) = true →
          (splitOnChar ',' ((env.getD "").data)).contains "minimum-python-version".data = true →
          enforce_restrictions env cur rest = Except.ok ()) := by
  intro env cur rest mpv
  refine ⟨by simp [enforce_restrictions], ?_, by decide, by decide, by decide, ?_, ?_⟩
  · intro h
    have hr : rest ≠ [] := by rintro rfl; simp [List.lookup] at h
    simp [enforce_restrictions, hr, h]
  · intro h1 h2 h3
    have hr : rest ≠ [] := by rintro rfl; simp [List.lookup] at h1
    simp [enforce_restrictions, hr, h1, h2]
    simpa using h3
  · intro h1 h2 h3
    have hr : rest ≠ [] := by rintro rfl; simp [List.lookup] at h1
    simp [enforce_restrictions, hr, h1, h2]
    simpa using h3

/-- C6 witness: a declared minimum of "3.10" on a current "3.9" fails with
code `restrictions_not_met` normally, and passes when the key is in the
ignore list. -/
theorem enforce_restrictions_correct_witness :
    enforce_restrictions none "3.9" [("minimum_python_version", some "3.10")] =
      Except.error ReturnCode.restrictions_not_met
    ∧ enforce_restrictions (some "minimum-python-version") "3.9"
        [("minimum_python_version", some "3.10")] = Except.ok () :=
  ⟨(enforce_restrictions_correct none "3.9"
      [("minimum_python_version", some "3.10")] "3.10").2.2.2.2.2.1
      (by decide) (by decide) (by decide),
   (enforce_restrictions_correct (some "minimum-python-version") "3.9"
      [("minimum_python_version", some "3.10")] "3.10").2.2.2.2.2.2
      (by decide) (by decide) (by decide)⟩

/-- C9 counterexample: with `PATH=/usr/bin` and venv bin dir `/venv/bin`, the
launcher sets `PATH` to `/usr/bin:/venv/bin` — the venv directory is appended,
not prepended as the claim states. -/
theorem run_command_path_appended_counterexample :
    (run_command [("PATH", "/usr/bin")] "/pyz" "/venv/bin" ["app"] 0).1.lookup "PATH" =
      some "/usr/bin:/venv/bin"
    ∧ (run_command [("PATH", "/usr/bin")] "/pyz" "/venv/bin" ["app"] 0).1.lookup "PATH" ≠
      some ("/venv/bin" ++ ":" ++ "/usr/bin") := by
  decide

/-- C9 (amended): the launcher runs the command in the current environment
with the dependency environment's bin directory APPENDED to `PATH` (created if
`PATH` was absent), `PYEMPAQ_PYZ_PATH` exposing the running archive's
location, all other variables untouched, and it returns the child's exit
status unchanged (no raise on non-zero). -/
theorem run_command_env_and_exit :
    ∀ (environ : List (String × String)) (pyz_dir venv_bin_dir : String)
      (cmd : List String) (rc : Int),
      (∀ p, environ.lookup "PATH" = some p →
        (run_command environ pyz_dir venv_bin_dir cmd rc).1.lookup "PATH" =
          some (p ++ ":" ++ venv_bin_dir))
      ∧ (environ.lookup "PATH" = none →
        (run_command environ pyz_dir venv_bin_dir cmd rc).1.lookup "PATH" =
          some venv_bin_dir)
      ∧ (run_command environ pyz_dir venv_bin_dir cmd rc).1.lookup "PYEMPAQ_PYZ_PATH" =
          some pyz_dir
      ∧ (∀ k, k ≠ "PATH" → k ≠ "PYEMPAQ_PYZ_PATH" →
          (run_command environ pyz_dir venv_bin_dir cmd rc).1.lookup k = environ.lookup k)
      ∧ (run_command environ pyz_dir venv_bin_dir cmd rc).2 = rc := by
  intro environ pyz_dir venv_bin_dir cmd rc
  have hne : ("PATH" : String) ≠ "PYEMPAQ_PYZ_PATH" := by decide
  refine ⟨?_, ?_, ?_, ?_, rfl⟩
  · intro p hp
    simp [run_command, hp, lookup_envSet_other _ _ _ _ hne, lookup_envSet_self]
  · intro hp
    simp [run_command, hp, lookup_envSet_other _ _ _ _ hne, lookup_envSet_self]
  · cases hp : environ.lookup "PATH" <;>
      simp [run_command, hp, lookup_envSet_self]
  · intro k hk1 hk2
    cases hp : environ.lookup "PATH" <;>
      simp [run_command, hp, lookup_envSet_other _ _ _ _ hk2,
        lookup_envSet_other _ _ _ _ hk1]

/-- C9 witness: concrete environments exercising the present-PATH, absent-PATH
and untouched-variable cases. -/
theorem run_command_env_and_exit_witness :
    (run_command [("PATH", "/usr/bin"), ("HOME", "/home/u")] "/pyz" "/venv/bin"
        ["app"] 3).1.lookup "PATH" = some ("/usr/bin" ++ ":" ++ "/venv/bin")
    ∧ (run_command [("HOME", "/home/u")] "/pyz" "/venv/bin"
        ["app"] 3).1.lookup "PATH" = some "/venv/bin"
    ∧ (run_command [("PATH", "/usr/bin"), ("HOME", "/home/u")] "/pyz" "/venv/bin"
        ["app"] 3).1.lookup "HOME" = some "/home/u" :=
  ⟨(run_command_env_and_exit [("PATH", "/usr/bin"), ("HOME", "/home/u")]
      "/pyz" "/venv/bin" ["app"] 3).1 "/usr/bin" (by decide),
   (run_command_env_and_exit [("HOME", "/home/u")]
      "/pyz" "/venv/bin" ["app"] 3).2.1 (by decide),
   (run_command_env_and_exit [("PATH", "/usr/bin"), ("HOME", "/home/u")]
      "/pyz" "/venv/bin" ["app"] 3).2.2.2.1 "HOME" (by decide) (by decide)⟩

end Pyempaq

namespace Pyempaq

/-- Auxiliary: only the empty path is contained in the empty path. -/
theorem pathLe_nil_iff {e : RPath} : pathLe e [] = true ↔ e = [] := by
  cases e <;> simp [pathLe]

/-- Auxiliary: membership in `pathParents` is proper ancestry. -/
theorem mem_pathParents : ∀ (p e : RPath),
    e ∈ pathParents p ↔ (pathLe e p = true ∧ e ≠ p)
  | [], e => by
    simp only [pathParents, List.not_mem_nil, false_iff]
    rintro ⟨h1, h2⟩
    exact h2 (pathLe_nil_iff.mp h1)
  | x :: xs, e => by
    cases e with
    | nil => simp [pathParents, pathLe]
    | cons y ys =>
      simp only [pathParents, List.mem_cons, List.mem_map, pathLe]
      constructor
      · rintro (h | ⟨t, ht, heq⟩)
        · exact absurd h (by simp)
        · cases heq
          obtain ⟨hle, hne⟩ := (mem_pathParents xs ys).mp ht
          refine ⟨by simp [hle], ?_⟩
          intro hcon
          injection hcon with _ h4
          exact hne h4
      · rintro ⟨h1, h2⟩
        have h3 : y = x ∧ pathLe ys xs = true := by
          constructor
          · by_contra hyx
            simp [hyx] at h1
          · by_cases hyx : y = x
            · simpa [hyx] using h1
            · simp [hyx] at h1
        obtain ⟨rfl, hle⟩ := h3
        have hne : ys ≠ xs := fun hc => h2 (by rw [hc])
        exact Or.inr ⟨ys, (mem_pathParents xs ys).mpr ⟨hle, hne⟩, rfl⟩

/-- Auxiliary: ancestry through `pathParents` is transitive. -/
theorem pathParents_trans : ∀ {n q e : RPath},
    q ∈ pathParents n → e ∈ pathParents q → e ∈ pathParents n := by
  intro n
  induction n with
  | nil => intro q e hq; simp [pathParents] at hq
  | cons x xs ih =>
    intro q e hq he
    simp only [pathParents, List.mem_cons, List.mem_map] at hq
    rcases hq with rfl | ⟨t, ht, rfl⟩
    · simp [pathParents] at he
    · simp only [pathParents, List.mem_cons, List.mem_map] at he
      rcases he with rfl | ⟨u, hu, rfl⟩
      · simp [pathParents]
      · simp only [pathParents, List.mem_cons, List.mem_map]
        exact Or.inr ⟨u, ih ht hu, rfl⟩

/-- Auxiliary: de-duplication preserves membership. -/
theorem mem_dedupFirst {a : RPath} : ∀ {l : List RPath}, a ∈ dedupFirst l ↔ a ∈ l
  | [] => Iff.rfl
  | x :: xs => by
    simp only [dedupFirst, List.mem_cons, List.mem_filter,
      mem_dedupFirst (l := xs), decide_eq_true_eq]
    constructor
    · rintro (rfl | ⟨h, _⟩)
      · exact Or.inl rfl
      · exact Or.inr h
    · rintro (rfl | h)
      · exact Or.inl rfl
      · by_cases hx : a = x
        · exact Or.inl hx
        · exact Or.inr ⟨h, hx⟩

/-- Auxiliary: an entry at a path exists iff `destHas` holds. -/
theorem destHas_iff {d : DestState} {p : RPath} :
    destHas d p = true ↔ ∃ k, (p, k) ∈ d := by
  simp only [destHas, List.any_eq_true, decide_eq_true_eq]
  constructor
  · rintro ⟨⟨q, k⟩, hmem, rfl⟩
    exact ⟨k, hmem⟩
  · rintro ⟨k, hk⟩
    exact ⟨(p, k), hk, rfl⟩

/-- Auxiliary: the ancestor-creating fold only adds entries at paths from the
given list. -/
theorem mem_foldl_mkParentsStep : ∀ (L : List RPath) (d : DestState)
    (ent : RPath × DestKind), ent ∈ L.foldl mkParentsStep d → ent ∈ d ∨ ent.1 ∈ L
  | [], _, _, h => Or.inl h
  | q :: L, d, ent, h => by
    rcases mem_foldl_mkParentsStep L (mkParentsStep d q) ent h with h1 | h1
    · unfold mkParentsStep at h1
      split at h1
      · exact Or.inl h1
      · rcases List.mem_append.mp h1 with h2 | h2
        · exact Or.inl h2
        · simp only [List.mem_singleton] at h2
          subst h2
          exact Or.inr (List.mem_cons_self _ _)
    · exact Or.inr (List.mem_cons_of_mem _ h1)

/-- Auxiliary: `mkParents` only adds entries at proper ancestors of the node. -/
theorem mem_mkParents {d : DestState} {n : RPath} {ent : RPath × DestKind}
    (h : ent ∈ mkParents d n) : ent ∈ d ∨ ent.1 ∈ pathParents n :=
  mem_foldl_mkParentsStep (pathParents n) d ent h

/-- Auxiliary: any entry `processNode` adds is either the node itself or one
of its proper ancestors, and only when the node has no excluded ancestor. -/
theorem mem_processNode {fs : SrcFS} {excl sds : List RPath} {d : DestState}
    {n : RPath} {ent : RPath × DestKind}
    (h : ent ∈ processNode fs excl sds d n) :
    ent ∈ d ∨ ((¬ ∃ q ∈ pathParents n, q ∈ excl) ∧
      (ent.1 = n ∨ ent.1 ∈ pathParents n)) := by
  by_cases hg1 : n ∈ excl
  · rw [processNode, if_pos hg1] at h
    exact Or.inl h
  by_cases hg2 : ∃ q ∈ pathParents n, q ∈ excl
  · rw [processNode, if_neg hg1, if_pos hg2] at h
    exact Or.inl h
  by_cases hg3 : ∃ q ∈ pathParents n, q ∈ sds
  · rw [processNode, if_neg hg1, if_neg hg2, if_pos hg3] at h
    exact Or.inl h
  rw [processNode, if_neg hg1, if_neg hg2, if_neg hg3] at h
  simp only at h
  have base : ent ∈ mkParents d n → ent ∈ d ∨
      ((¬ ∃ q ∈ pathParents n, q ∈ excl) ∧ (ent.1 = n ∨ ent.1 ∈ pathParents n)) := by
    intro hm
    rcases mem_mkParents hm with h1 | h1
    · exact Or.inl h1
    · exact Or.inr ⟨hg2, Or.inr h1⟩
  have app : ∀ k, ent ∈ mkParents d n ++ [(n, k)] → ent ∈ d ∨
      ((¬ ∃ q ∈ pathParents n, q ∈ excl) ∧ (ent.1 = n ∨ ent.1 ∈ pathParents n)) := by
    intro k hm
    rcases List.mem_append.mp hm with h1 | h1
    · exact base h1
    · simp only [List.mem_singleton] at h1
      subst h1
      exact Or.inr ⟨hg2, Or.inl rfl⟩
  rcases hn : fs.node n with _ | k
  · rw [hn] at h
    exact base h
  · cases k with
    | file =>
      rw [hn] at h
      exact app _ h
    | dir =>
      rw [hn] at h
      by_cases hd2 : destHas (mkParents d n) n = true
      · rw [if_pos hd2] at h
        exact base h
      · rw [if_neg hd2] at h
        exact app _ h
    | symlink resolved tid =>
      rw [hn] at h
      have h' : ent ∈ (if fs.srcRoot ∈ pathParents resolved then
          mkParents d n ++ [(n, DestKind.linkMade)] else mkParents d n) := h
      by_cases hin : fs.srcRoot ∈ pathParents resolved
      · rw [if_pos hin] at h'
        exact app _ h'
      · rw [if_neg hin] at h'
        exact base h'
    | other =>
      rw [hn] at h
      exact base h

end Pyempaq

namespace Pyempaq

/-- Auxiliary: the main loop never creates an entry that has an excluded
ancestor. -/
theorem foldl_processNode_no_excluded {fs : SrcFS} {excl sds : List RPath} :
    ∀ (M : List RPath) (d : DestState),
      (∀ ent ∈ d, ∀ e ∈ pathParents ent.1, e ∉ excl) →
      ∀ ent ∈ M.foldl (processNode fs excl sds) d, ∀ e ∈ pathParents ent.1, e ∉ excl
  | [], _, hd => hd
  | n :: M, d, hd => by
    apply foldl_processNode_no_excluded M
    intro ent hent
    rcases mem_processNode hent with h | ⟨hg2, h1⟩
    · exact hd ent h
    · intro e he hmem
      rcases h1 with h1 | h1
      · rw [h1] at he
        exact hg2 ⟨e, he, hmem⟩
      · exact hg2 ⟨e, pathParents_trans h1 he, hmem⟩

/-- C4: a node having an ancestor matched by an exclude pattern is absent from
the destination tree after the copy, even if the node itself was matched by an
include pattern. -/
theorem copy_project_excluded_ancestor_absent
    (fs : SrcFS) (incl exclude : List String) (gE : String → List RPath)
    (p e : RPath) (pat : String)
    (hpat : pat ∈ exclude) (he : e ∈ gE pat)
    (hanc : pathLe e p = true) (hne : e ≠ p) :
    destHas (copy_project fs incl exclude gE) p = false := by
  by_contra hcon
  rw [Bool.not_eq_false] at hcon
  obtain ⟨k, hk⟩ := destHas_iff.mp hcon
  simp only [copy_project] at hk
  have hinv := foldl_processNode_no_excluded
    (dedupFirst (includedList incl gE)) [] (by simp) (p, k) hk
  exact hinv e ((mem_pathParents p e).mpr ⟨hanc, hne⟩)
    (List.mem_flatMap.mpr ⟨pat, hpat, he⟩)

/-- C4 witness: including `base/foo` while excluding `base` leaves no
`base/foo` entry in the destination. -/
theorem copy_project_excluded_ancestor_absent_witness :
    ("base" : String) ∈ ["base"] ∧ (["base"] : RPath) ∈ gEBase "base" ∧
    pathLe ["base"] ["base", "foo"] = true ∧ (["base"] : RPath) ≠ ["base", "foo"] ∧
    destHas (copy_project fsBase ["base/foo"] ["base"] gEBase) ["base", "foo"] = false :=
  ⟨by decide, by decide, by decide, by decide,
   copy_project_excluded_ancestor_absent fsBase ["base/foo"] ["base"] gEBase
     ["base", "foo"] ["base"] "base" (by decide) (by decide) (by decide) (by decide)⟩

end Pyempaq

namespace Pyempaq

/-- Auxiliary: processing any node preserves the absence of a destination
entry at the path of a symlink whose resolved target is not strictly inside
the source root, provided that symlink is registered as a symlinked directory
whenever it is an ancestor of the processed node. -/
theorem processNode_absent_step {fs : SrcFS} {excl sds : List RPath}
    {d : DestState} {n s resolved : RPath} {tid : Bool}
    (hnode : fs.node s = some (NodeKind.symlink resolved tid))
    (hnin : fs.srcRoot ∉ pathParents resolved)
    (halt : s ∈ pathParents n → s ∈ sds)
    (hd : destHas d s = false) :
    destHas (processNode fs excl sds d n) s = false := by
  by_cases hg1 : n ∈ excl
  · rw [processNode, if_pos hg1]; exact hd
  by_cases hg2 : ∃ q ∈ pathParents n, q ∈ excl
  · rw [processNode, if_neg hg1, if_pos hg2]; exact hd
  by_cases hg3 : ∃ q ∈ pathParents n, q ∈ sds
  · rw [processNode, if_neg hg1, if_neg hg2, if_pos hg3]; exact hd
  have hps : s ∉ pathParents n := fun hmem => hg3 ⟨s, hmem, halt hmem⟩
  by_cases hns : n = s
  · subst hns
    rw [processNode, if_neg hg1, if_neg hg2, if_neg hg3]
    simp only [hnode]
    have h' : (if fs.srcRoot ∈ pathParents resolved then
        mkParents d n ++ [(n, DestKind.linkMade)] else mkParents d n) = mkParents d n :=
      if_neg hnin
    rw [h']
    by_contra hcon
    rw [Bool.not_eq_false] at hcon
    obtain ⟨k, hk⟩ := destHas_iff.mp hcon
    rcases mem_mkParents hk with h1 | h1
    · exact absurd (destHas_iff.mpr ⟨k, h1⟩) (by simp [hd])
    · exact hps h1
  · by_contra hcon
    rw [Bool.not_eq_false] at hcon
    obtain ⟨k, hk⟩ := destHas_iff.mp hcon
    rcases mem_processNode hk with h1 | ⟨_, h1 | h1⟩
    · exact absurd (destHas_iff.mpr ⟨k, h1⟩) (by simp [hd])
    · exact hns h1.symm
    · exact hps h1

/-- Auxiliary: the main loop preserves the absence of such a symlink's path. -/
theorem foldl_processNode_absent {fs : SrcFS} {excl sds : List RPath}
    {s resolved : RPath} {tid : Bool}
    (hnode : fs.node s = some (NodeKind.symlink resolved tid))
    (hnin : fs.srcRoot ∉ pathParents resolved) :
    ∀ (M : List RPath), (∀ n ∈ M, s ∈ pathParents n → s ∈ sds) →
      ∀ (d : DestState), destHas d s = false →
        destHas (M.foldl (processNode fs excl sds) d) s = false
  | [], _, _, hd => hd
  | n :: M, hM, d, hd =>
    foldl_processNode_absent hnode hnin M
      (fun n' hn' => hM n' (List.mem_cons_of_mem _ hn'))
      (processNode fs excl sds d n)
      (processNode_absent_step hnode hnin (hM n (List.mem_cons_self _ _)) hd)

/-- Auxiliary: a selected symlink whose resolved target is not strictly inside
the source root gets no destination entry.  This is the common core of the
outside-target and exactly-the-root cases. -/
theorem copy_project_symlink_core
    (fs : SrcFS) (incl exclude : List String) (gE : String → List RPath)
    (s resolved : RPath) (tid : Bool)
    (hwf : GlobWF fs (includedList incl gE))
    (hs : s ∈ includedList incl gE)
    (hnode : fs.node s = some (NodeKind.symlink resolved tid))
    (hnin : fs.srcRoot ∉ pathParents resolved) :
    destHas (copy_project fs incl exclude gE) s = false := by
  have hsdedup : s ∈ dedupFirst (includedList incl gE) := mem_dedupFirst.mpr hs
  simp only [copy_project]
  apply foldl_processNode_absent hnode hnin
  · intro n hn hmem
    cases tid with
    | true =>
      exact List.mem_filter.mpr ⟨hsdedup, by simp [isSymlinkDir, hnode]⟩
    | false =>
      have hdl := hwf n (mem_dedupFirst.mp hn) s hmem
      rw [hnode] at hdl
      simp [isDirLike] at hdl
  · rfl

/-- C5: a selected symbolic link whose resolved target lies outside the source
root gets no entry in the destination tree. -/
theorem copy_project_symlink_outside_absent
    (fs : SrcFS) (incl exclude : List String) (gE : String → List RPath)
    (s resolved : RPath) (tid : Bool)
    (hwf : GlobWF fs (includedList incl gE))
    (hs : s ∈ includedList incl gE)
    (hnode : fs.node s = some (NodeKind.symlink resolved tid))
    (houtside : pathLe fs.srcRoot resolved = false) :
    destHas (copy_project fs incl exclude gE) s = false :=
  copy_project_symlink_core fs incl exclude gE s resolved tid hwf hs hnode
    (fun hmem => by
      have h := (mem_pathParents resolved fs.srcRoot).mp hmem
      rw [h.1] at houtside
      exact Bool.noConfusion houtside)

/-- C5 witness: a symlink `lnk` resolving to `home/user/other`, outside the
source root `home/user/proj`, produces no destination entry. -/
theorem copy_project_symlink_outside_absent_witness :
    GlobWF fsLink (includedList ["lnk"] gELink)
    ∧ (["lnk"] : RPath) ∈ includedList ["lnk"] gELink
    ∧ pathLe fsLink.srcRoot ["home", "user", "other"] = false
    ∧ destHas (copy_project fsLink ["lnk"] [] gELink) ["lnk"] = false :=
  ⟨by unfold GlobWF; decide, by decide, by decide,
   copy_project_symlink_outside_absent fsLink ["lnk"] [] gELink ["lnk"]
     ["home", "user", "other"] false (by unfold GlobWF; decide) (by decide)
     (by decide) (by decide)⟩

/-- C10: the containment check is strict — a symlink resolving to the source
root itself gets no destination entry either. -/
theorem copy_project_symlink_to_root_absent
    (fs : SrcFS) (incl exclude : List String) (gE : String → List RPath)
    (s : RPath) (tid : Bool)
    (hwf : GlobWF fs (includedList incl gE))
    (hs : s ∈ includedList incl gE)
    (hnode : fs.node s = some (NodeKind.symlink fs.srcRoot tid)) :
    destHas (copy_project fs incl exclude gE) s = false :=
  copy_project_symlink_core fs incl exclude gE s fs.srcRoot tid hwf hs hnode
    (fun hmem => ((mem_pathParents fs.srcRoot fs.srcRoot).mp hmem).2 rfl)

/-- C10 witness: a symlink `lnk` resolving exactly to the source root
`home/user/proj` produces no destination entry. -/
theorem copy_project_symlink_to_root_absent_witness :
    GlobWF fsLinkRoot (includedList ["lnk"] gELinkRoot)
    ∧ (["lnk"] : RPath) ∈ includedList ["lnk"] gELinkRoot
    ∧ fsLinkRoot.node ["lnk"] = some (NodeKind.symlink fsLinkRoot.srcRoot true)
    ∧ destHas (copy_project fsLinkRoot ["lnk"] [] gELinkRoot) ["lnk"] = false :=
  ⟨by unfold GlobWF; decide, by decide, by decide,
   copy_project_symlink_to_root_absent fsLinkRoot ["lnk"] [] gELinkRoot ["lnk"]
     true (by unfold GlobWF; decide) (by decide) (by decide)⟩

end Pyempaq

namespace Pyempaq

/-- Auxiliary: the requirement files recorded in the metadata are the declared
ones, plus the synthetic file when extra dependencies exist. -/
theorem prepare_metadata_requirement_files (uniq : String) (config : Config) :
    (prepare_metadata uniq config).requirement_files =
      config.requirements ++ (if config.dependencies ≠ [] then [uniq] else []) := by
  unfold prepare_metadata
  rcases hs : config.exec.script with _ | s <;>
    rcases hm : config.exec.module with _ | m <;>
      rcases he : config.exec.entrypoint with _ | ep <;>
        by_cases hd : config.dependencies = [] <;>
          simp [hs, hm, he, hd]

/-- C7 counterexample: a manifest declaring `reqs.txt` as a requirement while
an exclude pattern removes it from the selected content is packed
successfully — the archive is produced, its metadata still declares
`reqs.txt`, and the staged content has no `reqs.txt`. -/
theorem pack_excluded_requirement_counterexample :
    ((pack fsPack gEPack "u" true true cfgPack).archive).isSome = true
    ∧ "reqs.txt" ∈ (((pack fsPack gEPack "u" true true cfgPack).archive.map
        (fun a => a.metadata.requirement_files)).getD [])
    ∧ destHas (((pack fsPack gEPack "u" true true cfgPack).archive.map
        (fun a => a.origEntries)).getD []) ["reqs.txt"] = false := by
  decide

/-- C7 (amended): `pack` performs no check that declared requirement files are
present in the selected content; whenever the copy and bootstrap steps
succeed, it produces the archive, with every declared requirement file still
listed in the metadata, regardless of the include/exclude selection. -/
theorem pack_no_requirement_presence_check :
    ∀ (fs : SrcFS) (gE : String → List RPath) (uniq : String) (config : Config),
      ((pack fs gE uniq true true config).archive).isSome = true
      ∧ config.requirements ⊆
          (((pack fs gE uniq true true config).archive.map
            (fun a => a.metadata.requirement_files)).getD []) := by
  intro fs gE uniq config
  constructor
  · simp [pack]
  · simp only [pack, not_true, if_false, ite_false, not_false_iff, if_true, ite_true,
      Option.map_some', Option.getD_some]
    rw [prepare_metadata_requirement_files]
    exact List.subset_append_left _ _

/-- C8 counterexample: when the copy step fails, `pack` aborts with the
exception — the archive is not produced and the scratch directory is never
removed. -/
theorem pack_failure_leaves_scratch_counterexample :
    ((pack fsPack gEPack "u" false true cfgPack).archive).isSome = false
    ∧ PackAction.rmtreeTmp ∉ (pack fsPack gEPack "u" false true cfgPack).actions := by
  decide

/-- C8 (amended): the scratch directory is removed as the final step of a
successful pack, but on failure paths the exception propagates and the scratch
directory is left behind. -/
theorem pack_scratch_removed_only_on_success :
    ∀ (fs : SrcFS) (gE : String → List RPath) (uniq : String)
      (copyOk bootstrapOk : Bool) (config : Config),
      (((pack fs gE uniq copyOk bootstrapOk config).archive).isSome = true →
        (pack fs gE uniq copyOk bootstrapOk config).actions.getLast? =
          some PackAction.rmtreeTmp)
      ∧ (((pack fs gE uniq copyOk bootstrapOk config).archive).isSome = false →
        PackAction.rmtreeTmp ∉ (pack fs gE uniq copyOk bootstrapOk config).actions) := by
  intro fs gE uniq c b config
  cases c <;> cases b <;> simp [pack]

/-- C8 witness: a successful run ends with the scratch removal; a failed run
never performs it. -/
theorem pack_scratch_removed_only_on_success_witness :
    (pack fsPack gEPack "u" true true cfgPack).actions.getLast? =
      some PackAction.rmtreeTmp
    ∧ PackAction.rmtreeTmp ∉ (pack fsPack gEPack "u" false true cfgPack).actions :=
  ⟨(pack_scratch_removed_only_on_success fsPack gEPack "u" true true cfgPack).1
     (by decide),
   (pack_scratch_removed_only_on_success fsPack gEPack "u" false true cfgPack).2
     (by decide)⟩

end Pyempaq
